import Mathlib

/-!
Verification of the Power Apps local development bridge: the Vite plugin
shipped in the starter template (`powerApps` in the plugin source).
The development embeds the plugin's pure logic — the origin allow-list
matcher `powerAppsCorsOrigins`, the config loader `getPowerConfig`
with its module-level cache `cachedPowerConfig`, the HTTP middleware
`servePowerConfig`, the watcher callback of `watchPowerConfig`, and the
play-URL composition of `printLocalPlayUrl` — as executable Lean
functions.  Effects of the Node runtime (the file read plus `JSON.parse`,
the response object, the logger) are made explicit: the file system is a
`FileContent` argument, the mutable cache is threaded as an
`Option Json` value, thrown errors become `Except`, and each entry
point returns the response/log values it produced.
-/

namespace PowerAppsBridge

/-- JSON values as produced by `JSON.parse`: the domain of the parsed
`power.config.json` content.  Numbers are modelled as integers; no claim
involves numeric config fields. -/
inductive Json where
  | null
  | bool (b : Bool)
  | num (n : Int)
  | str (s : String)
  | arr (elems : List Json)
  | obj (fields : List (String × Json))

/-- JavaScript property lookup on a parsed object: the last binding of a
key wins, mirroring how `JSON.parse` builds objects when keys repeat. -/
def jsGet (fields : List (String × Json)) (key : String) : Option Json :=
  (fields.filter (fun kv => kv.1 = key)).getLast?.map (fun kv => kv.2)

/-- Type guard `isPowerConfig`: the value is a non-null object, has an
`environmentId` property, and that property is a string.  (`typeof x
=== "object"` also accepts JS arrays, but `"environmentId" in arr` is
false for any array produced by `JSON.parse`, so arrays are rejected.) -/
def isPowerConfig : Json → Bool
  | Json.obj fields =>
      match jsGet fields "environmentId" with
      | some (Json.str _) => true
      | _ => false
  | _ => false

/-- Reading `powerConfig.environmentId` from a parsed config value. -/
def environmentId : Json → Option String
  | Json.obj fields =>
      match jsGet fields "environmentId" with
      | some (Json.str s) => some s
      | _ => none
  | _ => none

/-- Modelled from the platform: the combined outcome of
`fs.readFileSync` and `JSON.parse` on the config file — the file is
absent (`ENOENT`), present but not valid JSON (`SyntaxError` with a
message), or parses to a JSON value. -/
inductive FileContent where
  | missing
  | malformed (msg : String)
  | parsed (j : Json)

/-- The three errors `getPowerConfig` can throw, one per `throw new
Error(...)` site. -/
inductive LoadError where
  | missingFile (configPath : String)
  | invalidJson (msg : String)
  | invalidStructure

/-- The message of each thrown error, verbatim from the source. -/
def LoadError.message : LoadError → String
  | LoadError.missingFile p =>
      "Missing file. Ensure you have run \x27pac code init\x27 first. power.config.json expected at " ++ p ++ "."
  | LoadError.invalidJson m => "Invalid JSON in power.config.json: " ++ m
  | LoadError.invalidStructure => "Invalid power.config.json structure. Missing environmentId."

/-- Result of one `getPowerConfig` call: the returned value or thrown
error, the value of the module-level `cachedPowerConfig` afterwards, and
whether the call reached the `fs.readFileSync` line. -/
structure LoadOutcome where
  result : Except LoadError Json
  cache : Option Json
  fileRead : Bool

/-- The loader `getPowerConfig`: answer from `cachedPowerConfig` when it is set
(a cached config object is always truthy); otherwise read and parse the
file, fail for a missing file, malformed JSON, or a value rejected by
`isPowerConfig`, and cache the parsed value on success. -/
def getPowerConfig (configPath : String) (cache : Option Json)
    (file : FileContent) : LoadOutcome :=
  match cache with
  | some c => { result := Except.ok c, cache := some c, fileRead := false }
  | none =>
    match file with
    | FileContent.missing =>
        { result := Except.error (LoadError.missingFile configPath),
          cache := none, fileRead := true }
    | FileContent.malformed msg =>
        { result := Except.error (LoadError.invalidJson msg),
          cache := none, fileRead := true }
    | FileContent.parsed j =>
        if isPowerConfig j then
          { result := Except.ok j, cache := some j, fileRead := true }
        else
          { result := Except.error LoadError.invalidStructure,
            cache := none, fileRead := true }

/-- Result of the watcher callback registered by `watchPowerConfig`:
the cache afterwards, whether `server.restart()` was called, and the
log lines produced. -/
structure WatchOutcome where
  cache : Option Json
  restartRequested : Bool
  logs : List String

/-- Modelled from picocolors: a color function wraps its argument in
ANSI codes when color output is enabled and is the identity otherwise. -/
def ansiWrap (enabled : Bool) (op cl s : String) : String :=
  if enabled then op ++ s ++ cl else s

def pcMagenta (e : Bool) : String → String := ansiWrap e "\x1b[35m" "\x1b[39m"

def pcMagentaBright (e : Bool) : String → String := ansiWrap e "\x1b[95m" "\x1b[39m"

def pcRed (e : Bool) : String → String := ansiWrap e "\x1b[31m" "\x1b[39m"

def pcYellow (e : Bool) : String → String := ansiWrap e "\x1b[33m" "\x1b[39m"

def pcReset (e : Bool) : String → String := ansiWrap e "\x1b[0m" "\x1b[0m"

/-- The `"change"` callback of `watchPowerConfig`, applied to the path
reported by the watcher: on the exact config path it logs, clears
`cachedPowerConfig` and restarts the server; any other path is
ignored. -/
def watchPowerConfig (enabled : Bool) (configPath changedFile : String)
    (cache : Option Json) : WatchOutcome :=
  if changedFile = configPath then
    { cache := none, restartRequested := true,
      logs := [pcYellow enabled "[powerApps] power.config.json changed, restarting server..."] }
  else
    { cache := cache, restartRequested := false, logs := [] }

/-- Modelled from the platform: `JSON.stringify` on a parsed value —
strings quoted with quote/backslash/newline escapes, arrays and objects
comma-joined. -/
def escapeJsonChar (c : Char) : String :=
  if c = Char.ofNat 34 then "\\\""
  else if c = Char.ofNat 92 then "\\\\"
  else if c = Char.ofNat 10 then "\\n"
  else String.singleton c

def escapeJson (s : String) : String :=
  String.join (s.data.map escapeJsonChar)

mutual

def Json.stringify : Json → String
  | Json.null => "null"
  | Json.bool true => "true"
  | Json.bool false => "false"
  | Json.num n => toString n
  | Json.str s => "\"" ++ escapeJson s ++ "\""
  | Json.arr elems => "[" ++ stringifyElems elems ++ "]"
  | Json.obj fields => "\x7b" ++ stringifyFields fields ++ "\x7d"

def stringifyElems : List Json → String
  | [] => ""
  | [j] => Json.stringify j
  | j :: rest => Json.stringify j ++ "," ++ stringifyElems rest

def stringifyFields : List (String × Json) → String
  | [] => ""
  | [kv] => "\"" ++ escapeJson kv.1 ++ "\":" ++ Json.stringify kv.2
  | kv :: rest =>
      "\"" ++ escapeJson kv.1 ++ "\":" ++ Json.stringify kv.2 ++ "," ++ stringifyFields rest

end

/-! ## The origin allow-list `powerAppsCorsOrigins`

Each of the three regular expressions is transliterated into an
executable matcher over the origin's character list.  Concatenation with
a variable-length part is decided by enumerating split points; the
star `([^.]+\.)*` is decided by the deterministic label scanner
`starLabels` (inside a group no dot may occur, so the first dot always
ends the group). -/

/-- The class `\d` of the regex: an ASCII digit. -/
def isAsciiDigit (c : Char) : Bool :=
  decide (Char.ofNat 48 ≤ c) && decide (c ≤ Char.ofNat 57)

/-- Remove a literal from the front of a list: `chompLit pre l = some r`
exactly when `l = pre ++ r`. -/
def chompLit : List Char → List Char → Option (List Char)
  | [], l => some l
  | _ :: _, [] => none
  | a :: as, b :: bs => if a = b then chompLit as bs else none

/-- The host alternative `(?:[^:]+\.)?localhost`: `localhost` itself, or
a non-empty colon-free run followed by a dot and `localhost`. -/
def localhostHost (h : List Char) : Bool :=
  if h = "localhost".data then true
  else if h.length < 11 then false
  else
    (h.drop (h.length - 10)).take 1 = ".".data &&
    h.drop (h.length - 9) = "localhost".data &&
    (h.take (h.length - 10)).all (fun c => c ≠ Char.ofNat 58)

/-- The full host alternation of the loopback regex. -/
def loopbackHost (h : List Char) : Bool :=
  localhostHost h || h = "127.0.0.1".data || h = "[::1]".data

/-- The optional port `(?::\d+)?`: empty, or a colon followed by one or
more digits. -/
def portOpt : List Char → Bool
  | [] => true
  | c :: ds => c = Char.ofNat 58 && ds ≠ [] && ds.all isAsciiDigit

/-- The `host ++ port` concatenation of the loopback regex, decided over all splits. -/
def hostPort (l : List Char) : Bool :=
  (List.range (l.length + 1)).any
    (fun i => loopbackHost (l.take i) && portOpt (l.drop i))

/-- The first allow-list pattern,
`^https?:\/\/(?:(?:[^:]+\.)?localhost|127\.0\.0\.1|\[::1\])(?::\d+)?$`. -/
def loopbackTest (s : String) : Bool :=
  match chompLit "http://".data s.data with
  | some r => hostPort r
  | none =>
    match chompLit "https://".data s.data with
    | some r => hostPort r
    | none => false

/-- The second allow-list pattern, `^https:\/\/apps\.powerapps\.com$`. -/
def hostedExactTest (s : String) : Bool :=
  s = "https://apps.powerapps.com"

mutual

/-- The star `([^.]+\.)*`: a sequence of groups, each a non-empty dot-free run
closed by a dot. -/
def starLabels : List Char → Bool
  | [] => true
  | c :: rest => c ≠ Char.ofNat 46 && afterLabel rest

/-- Inside a group of `([^.]+\.)*`, at least one character consumed:
scan to the group's closing dot. -/
def afterLabel : List Char → Bool
  | [] => false
  | c :: rest => if c = Char.ofNat 46 then starLabels rest else afterLabel rest

end

/-- The third allow-list pattern,
`^https:\/\/apps\.(?:[^.]+\.)*powerapps\.com$`. -/
def hostedSubTest (s : String) : Bool :=
  match chompLit "https://apps.".data s.data with
  | none => false
  | some r =>
    13 ≤ r.length &&
    r.drop (r.length - 13) = "powerapps.com".data &&
    starLabels (r.take (r.length - 13))

/-- The `powerAppsCorsOrigins` array: one matcher per regex, in source
order. -/
def powerAppsCorsOrigins : List (String → Bool) :=
  [loopbackTest, hostedExactTest, hostedSubTest]

/-- The test `powerAppsCorsOrigins.some((pattern) => pattern.test(origin))`. -/
def originAllowed (origin : String) : Bool :=
  powerAppsCorsOrigins.any (fun t => t origin)

/-- Whether `needle` matches at the front of `hay`. -/
def matchesAt : List Char → List Char → Bool
  | [], _ => true
  | _ :: _, [] => false
  | a :: as, b :: bs => a = b && matchesAt as bs

/-- Whether `needle` occurs contiguously somewhere in `hay`. -/
def occursIn (needle : List Char) : List Char → Bool
  | [] => matchesAt needle []
  | c :: rest => matchesAt needle (c :: rest) || occursIn needle rest

/-! ## The HTTP middleware `servePowerConfig` -/

/-- The fixed serving path (without its leading slash). -/
def powerConfigPath : String := "__vite_powerapps_plugin__/power.config.json"

/-- The response object as the middleware leaves it: status code (Node
defaults to 200), the headers set, the body passed to `res.end`, and
whether `res.end` was called. -/
structure Response where
  statusCode : Nat
  headers : List (String × String)
  body : String
  ended : Bool

/-- Result of one middleware invocation: the response, the cache
afterwards, the error log lines, and whether `getPowerConfig` was
invoked. -/
structure HandlerResult where
  response : Response
  cache : Option Json
  logs : List String
  loadAttempted : Bool

/-- The manual CORS headers: set when the request carries a truthy
Origin header that some allow-list pattern accepts, absent otherwise. -/
def corsHeadersFor (origin : Option String) : List (String × String) :=
  match origin with
  | some o =>
      if o ≠ "" && originAllowed o then
        [("Access-Control-Allow-Origin", o),
         ("Access-Control-Allow-Methods", "GET, OPTIONS"),
         ("Access-Control-Allow-Headers", "*")]
      else []
  | none => []

/-- The header names whose presence depends on the Origin header. -/
def corsHeaderNames : List String :=
  ["Access-Control-Allow-Origin", "Access-Control-Allow-Methods",
   "Access-Control-Allow-Headers"]

/-- Drop the CORS headers from a header list, keeping the rest. -/
def stripCors (hs : List (String × String)) : List (String × String) :=
  hs.filter (fun kv => !(corsHeaderNames.contains kv.1))

/-- The middleware of `servePowerConfig`, applied to one request: set
the three CORS headers when the request carries a truthy Origin header
matching the allow-list; answer `OPTIONS` with an empty 204 before any
config access; otherwise set content-type and `Cache-Control: no-store`,
load the config, and end the response with the serialized config — or,
when loading throws, log the error and end with an empty body. -/
def servePowerConfig (enabled : Bool) (configPath : String)
    (origin : Option String) (method : String) (cache : Option Json)
    (file : FileContent) : HandlerResult :=
  let corsHeaders : List (String × String) := corsHeadersFor origin
  if method = "OPTIONS" then
    { response := { statusCode := 204, headers := corsHeaders, body := "", ended := true },
      cache := cache, logs := [], loadAttempted := false }
  else
    let headers := corsHeaders ++
      [("Content-Type", "application/json; charset=utf-8"),
       ("Cache-Control", "no-store")]
    let out := getPowerConfig configPath cache file
    match out.result with
    | Except.error e =>
        { response := { statusCode := 200, headers := headers, body := "", ended := true },
          cache := out.cache,
          logs := [pcRed enabled
            ("[powerApps] Error serving power.config.json:\n            ⤷" ++ e.message)],
          loadAttempted := true }
    | Except.ok cfg =>
        { response := { statusCode := 200, headers := headers,
                        body := Json.stringify cfg, ended := true },
          cache := out.cache, logs := [], loadAttempted := true }

/-! ## The startup notifier `printLocalPlayUrl` -/

/-- The play URL exactly as `printLocalPlayUrl` concatenates it from
the environment id and the resolved local base URL. -/
def composePlayUrl (enabled : Bool) (environmentId baseUrl : String) : String :=
  let localAppUrl := baseUrl
  let localConnectionUrl := baseUrl ++ powerConfigPath
  (pcMagenta enabled "https://apps.powerapps.com/play/e/" ++
     pcMagentaBright enabled environmentId ++
     pcMagenta enabled "/a/local") ++
  (pcMagenta enabled "?_localAppUrl=" ++ pcMagentaBright enabled localAppUrl) ++
  (pcMagenta enabled "&_localConnectionUrl=" ++
     pcMagentaBright enabled localConnectionUrl) ++
  pcReset enabled ""

/-- The `"listening"` callback of `printLocalPlayUrl`: load the config
(logging and stopping on failure), stop when `environmentId` is falsy or
no base URL can be determined, otherwise log the banner and the play
URL.  Returns the log lines and the cache afterwards. -/
def printLocalPlayUrl (enabled : Bool) (configPath : String)
    (cache : Option Json) (file : FileContent) (baseUrl : Option String) :
    List String × Option Json :=
  let out := getPowerConfig configPath cache file
  match out.result with
  | Except.error e =>
      ([pcRed enabled
          ("[powerApps] Error loading power.config.json:\n            ⤷" ++ e.message)],
       out.cache)
  | Except.ok cfg =>
    match environmentId cfg with
    | some eid =>
      if eid = "" then
        (["[powerApps] environmentId is not defined in power.config.json"], out.cache)
      else
        match baseUrl with
        | none =>
            (["[powerApps] Unable to determine vite dev server URL"], out.cache)
        | some b =>
            (["  " ++ pcMagentaBright enabled "Power Apps Vite Plugin" ++ "\n",
              "  " ++ pcMagenta enabled "➜" ++ "  Local Play:   " ++
                composePlayUrl enabled eid b],
             out.cache)
    | none =>
        (["[powerApps] environmentId is not defined in power.config.json"], out.cache)

/-! ## Declarative characterization of the allow-list

These predicates follow the spec's wording for the two origin families;
the spec's "subdomain" part of a localhost origin is the pattern's
non-empty colon-free run followed by a dot, and a hosted-player label is
a non-empty dot-free run.  `Char.ofNat 58` is the colon, `Char.ofNat 46`
the dot. -/

/-- Host part of a loopback origin: `localhost` with an optional
subdomain part in front of it. -/
def SpecLocalhostHost (h : List Char) : Prop :=
  h = "localhost".data ∨
  ∃ p : List Char, p ≠ [] ∧ (∀ c ∈ p, c ≠ Char.ofNat 58) ∧
    h = p ++ ".".data ++ "localhost".data

/-- Any host accepted by the loopback pattern. -/
def SpecLoopbackHost (h : List Char) : Prop :=
  SpecLocalhostHost h ∨ h = "127.0.0.1".data ∨ h = "[::1]".data

/-- An optional port: empty, or a colon and one or more digits. -/
def SpecPort (p : List Char) : Prop :=
  p = [] ∨
  ∃ d : List Char, d ≠ [] ∧ (∀ c ∈ d, isAsciiDigit c = true) ∧
    p = Char.ofNat 58 :: d

/-- A loopback/localhost origin: http or https scheme, a loopback host,
and an optional port. -/
def SpecLoopbackOrigin (s : String) : Prop :=
  ∃ sch host port : List Char,
    (sch = "http".data ∨ sch = "https".data) ∧
    SpecLoopbackHost host ∧ SpecPort port ∧
    s.data = sch ++ "://".data ++ host ++ port

/-- One or more labels, each closed by a dot: `l1.l2. ... lk.` -/
def dotChain (labels : List (List Char)) : List Char :=
  labels.foldr (fun l acc => l ++ Char.ofNat 46 :: acc) []

/-- Dot-separated labels without a trailing dot: `l1.l2. ... .lk` -/
def dotSeparated : List (List Char) → List Char
  | [] => []
  | [l] => l
  | l :: rest => l ++ Char.ofNat 46 :: dotSeparated rest

/-- A hosted-player origin: exactly `https://apps.powerapps.com`, or
`https://apps.` followed by one or more dot-separated non-empty dot-free
labels and `.powerapps.com`. -/
def SpecHostedOrigin (s : String) : Prop :=
  s = "https://apps.powerapps.com" ∨
  ∃ labels : List (List Char), labels ≠ [] ∧
    (∀ l ∈ labels, l ≠ [] ∧ ∀ c ∈ l, c ≠ Char.ofNat 46) ∧
    s.data = "https://apps.".data ++ dotSeparated labels ++ ".powerapps.com".data

/-- An origin the spec allows: a loopback origin or a hosted-player
origin. -/
def SpecAllowedOrigin (s : String) : Prop :=
  SpecLoopbackOrigin s ∨ SpecHostedOrigin s

/-- A list of labels each of which is non-empty and dot-free. -/
def GoodLabels (labels : List (List Char)) : Prop :=
  ∀ l ∈ labels, l ≠ [] ∧ ∀ c ∈ l, c ≠ Char.ofNat 46

/-- A cache slot that only ever holds a validated config record. -/
def cacheValid (cache : Option Json) : Prop :=
  ∀ c, cache = some c → isPowerConfig c = true

/-! ## Equivalence of the matcher and the characterization -/

theorem chompLit_eq_some (pre : List Char) :
    ∀ l r, chompLit pre l = some r ↔ l = pre ++ r := by
  induction pre with
  | nil => intro l r; simp [chompLit]
  | cons a as ih =>
    intro l r
    cases l with
    | nil => simp [chompLit]
    | cons b bs =>
      by_cases hab : a = b
      · subst hab; simp [chompLit, ih]
      · simp [chompLit, hab, Ne.symm hab]

theorem localhostHost_iff (h : List Char) :
    localhostHost h = true ↔ SpecLocalhostHost h := by
  unfold localhostHost SpecLocalhostHost
  by_cases h9 : h = "localhost".data
  · simp [h9]
  · rw [if_neg h9]
    by_cases hlen : h.length < 11
    · rw [if_pos hlen]
      constructor
      · intro hf; exact absurd hf (by simp)
      · rintro (h9' | ⟨p, hne, hpc, habs⟩)
        · exact absurd h9' h9
        · exfalso
          have hl := congrArg List.length habs
          simp [List.length_append] at hl
          have hp1 : 1 ≤ p.length := List.length_pos.mpr hne
          omega
    · rw [if_neg hlen]
      simp only [Bool.and_eq_true, decide_eq_true_eq, List.all_eq_true,
        decide_eq_true_eq]
      constructor
      · rintro ⟨⟨hdot, htail⟩, hall⟩
        refine Or.inr ⟨h.take (h.length - 10), ?_, hall, ?_⟩
        · have hlt : (h.take (h.length - 10)).length = h.length - 10 := by
            rw [List.length_take]; omega
          intro hnil
          rw [hnil] at hlt
          simp at hlt
          omega
        · have hdrop : h.drop (h.length - 10) =
              ".".data ++ "localhost".data := by
            have h1 := List.take_append_drop 1 (h.drop (h.length - 10))
            have h2 : (h.drop (h.length - 10)).drop 1 =
                h.drop (h.length - 9) := by
              rw [List.drop_drop]
              congr 1
              omega
            rw [hdot, h2, htail] at h1
            exact h1.symm
          calc h = h.take (h.length - 10) ++ h.drop (h.length - 10) :=
                  (List.take_append_drop (h.length - 10) h).symm
            _ = h.take (h.length - 10) ++ (".".data ++ "localhost".data) := by
                  rw [hdrop]
            _ = h.take (h.length - 10) ++ ".".data ++ "localhost".data := by
                  rw [List.append_assoc]
      · rintro (h9' | ⟨p, hne, hpc, habs⟩)
        · exact absurd h9' h9
        · have hlp : 1 ≤ p.length := List.length_pos.mpr hne
          have hlh : h.length = p.length + 10 := by
            have hl := congrArg List.length habs
            simp [List.length_append] at hl
            omega
          have hform : h = p ++ (".".data ++ "localhost".data) := by
            rw [habs, List.append_assoc]
          have hlen2 : (p ++ (".".data ++ "localhost".data)).length =
              p.length + 10 := by
            simp [List.length_append]
          have htake : h.take (h.length - 10) = p := by
            rw [hform]
            exact List.take_left' (by omega)
          have hdrop : h.drop (h.length - 10) =
              ".".data ++ "localhost".data := by
            rw [hform]
            exact List.drop_left' (by omega)
          have hdrop9 : h.drop (h.length - 9) = "localhost".data := by
            have h2 : h.drop (h.length - 9) =
                (h.drop (h.length - 10)).drop 1 := by
              rw [List.drop_drop]
              congr 1
              omega
            rw [h2, hdrop]
            decide
          refine ⟨⟨?_, ?_⟩, ?_⟩
          · rw [hdrop]; decide
          · rw [hdrop9]
          · rw [htake]; exact hpc

theorem loopbackHost_iff (h : List Char) :
    loopbackHost h = true ↔ SpecLoopbackHost h := by
  unfold loopbackHost SpecLoopbackHost
  simp [localhostHost_iff, Bool.or_eq_true, decide_eq_true_eq, or_assoc]

theorem portOpt_iff (p : List Char) : portOpt p = true ↔ SpecPort p := by
  unfold SpecPort
  cases p with
  | nil => simp [portOpt]
  | cons c ds =>
    simp only [portOpt, Bool.and_eq_true, decide_eq_true_eq, List.all_eq_true]
    constructor
    · rintro ⟨⟨hc, hne⟩, hd⟩
      exact Or.inr ⟨ds, hne, hd, by rw [hc]⟩
    · rintro (habs | ⟨d, hne, hd, heq⟩)
      · cases habs
      · injection heq with h1 h2
        subst h1; subst h2
        exact ⟨⟨rfl, hne⟩, hd⟩

theorem hostPort_iff (l : List Char) :
    hostPort l = true ↔
      ∃ h p, loopbackHost h = true ∧ portOpt p = true ∧ l = h ++ p := by
  unfold hostPort
  rw [List.any_eq_true]
  constructor
  · rintro ⟨i, hi, hp⟩
    simp only [Bool.and_eq_true] at hp
    exact ⟨l.take i, l.drop i, hp.1, hp.2, (List.take_append_drop i l).symm⟩
  · rintro ⟨h, p, hh, hp, heq⟩
    refine ⟨h.length, ?_, ?_⟩
    · rw [List.mem_range]
      have hl := congrArg List.length heq
      simp [List.length_append] at hl
      omega
    · simp only [Bool.and_eq_true]
      exact ⟨by rw [heq, List.take_left]; exact hh,
             by rw [heq, List.drop_left]; exact hp⟩

theorem chompHttpOfHttps (X : List Char) :
    chompLit "http://".data ("https://".data ++ X) = none := rfl

theorem loopbackTest_iff (s : String) :
    loopbackTest s = true ↔ SpecLoopbackOrigin s := by
  unfold loopbackTest SpecLoopbackOrigin
  constructor
  · intro ht
    cases hc : chompLit "http://".data s.data with
    | some r =>
      rw [hc] at ht
      have hs : s.data = "http://".data ++ r := (chompLit_eq_some _ _ _).mp hc
      obtain ⟨h, p, hh, hp, heq⟩ := (hostPort_iff r).mp ht
      exact ⟨"http".data, h, p, Or.inl rfl, (loopbackHost_iff h).mp hh,
        (portOpt_iff p).mp hp, by rw [hs, heq]; rfl⟩
    | none =>
      rw [hc] at ht
      cases hc2 : chompLit "https://".data s.data with
      | some r =>
        rw [hc2] at ht
        have hs : s.data = "https://".data ++ r := (chompLit_eq_some _ _ _).mp hc2
        obtain ⟨h, p, hh, hp, heq⟩ := (hostPort_iff r).mp ht
        exact ⟨"https".data, h, p, Or.inr rfl, (loopbackHost_iff h).mp hh,
          (portOpt_iff p).mp hp, by rw [hs, heq]; rfl⟩
      | none =>
        rw [hc2] at ht
        cases ht
  · rintro ⟨sch, h, p, hsch, hh, hp, heq⟩
    have hh' := (loopbackHost_iff h).mpr hh
    have hp' := (portOpt_iff p).mpr hp
    have hhp := (hostPort_iff (h ++ p)).mpr ⟨h, p, hh', hp', rfl⟩
    cases hsch with
    | inl hhttp =>
      subst hhttp
      have hc : chompLit "http://".data s.data = some (h ++ p) :=
        (chompLit_eq_some _ _ _).mpr (by rw [heq]; rfl)
      rw [hc]
      exact hhp
    | inr hhttps =>
      subst hhttps
      have hs : s.data = "https://".data ++ (h ++ p) := by rw [heq]; rfl
      have hc : chompLit "http://".data s.data = none := by
        rw [hs]; exact chompHttpOfHttps _
      have hc2 : chompLit "https://".data s.data = some (h ++ p) :=
        (chompLit_eq_some _ _ _).mpr hs
      rw [hc, hc2]
      exact hhp

theorem starLabels_afterLabel_iff (m : List Char) :
    (starLabels m = true ↔
      ∃ labels : List (List Char), GoodLabels labels ∧ m = dotChain labels) ∧
    (afterLabel m = true ↔
      ∃ (a : List Char) (labels : List (List Char)),
        (∀ c ∈ a, c ≠ Char.ofNat 46) ∧ GoodLabels labels ∧
        m = a ++ Char.ofNat 46 :: dotChain labels) := by
  induction m with
  | nil =>
    constructor
    · constructor
      · intro _
        refine ⟨[], ?_, rfl⟩
        intro l hl
        exact nomatch hl
      · intro _; rfl
    · constructor
      · intro hf; cases hf
      · rintro ⟨a, labels, _, _, habs⟩
        cases a <;> cases habs
  | cons c t ih =>
    obtain ⟨ihs, iha⟩ := ih
    constructor
    · simp only [starLabels, Bool.and_eq_true, decide_eq_true_eq, iha]
      constructor
      · rintro ⟨hcdot, a, labels, ha, hlabels, ht⟩
        refine ⟨(c :: a) :: labels, ?_, ?_⟩
        · intro l hl
          rcases List.mem_cons.mp hl with h1 | h2
          · subst h1
            refine ⟨by simp, ?_⟩
            intro x hx
            rcases List.mem_cons.mp hx with h3 | h4
            · subst h3; exact hcdot
            · exact ha x h4
          · exact hlabels l h2
        · rw [ht]; rfl
      · rintro ⟨labels, hlabels, heq⟩
        cases labels with
        | nil => cases heq
        | cons l ls =>
          obtain ⟨hlne, hlchars⟩ := hlabels l (List.mem_cons_self l ls)
          cases l with
          | nil => exact absurd rfl hlne
          | cons x xs =>
            rw [show dotChain ((x :: xs) :: ls) =
                  x :: (xs ++ Char.ofNat 46 :: dotChain ls) from rfl] at heq
            injection heq with h1 h2
            subst h1
            refine ⟨hlchars c (List.mem_cons_self c xs), xs, ls, ?_, ?_, h2⟩
            · intro ch hch
              exact hlchars ch (List.mem_cons_of_mem c hch)
            · intro l' hl'
              exact hlabels l' (List.mem_cons_of_mem _ hl')
    · by_cases hc : c = Char.ofNat 46
      · subst hc
        rw [show afterLabel (Char.ofNat 46 :: t) = starLabels t from by
              simp [afterLabel]]
        rw [ihs]
        constructor
        · rintro ⟨labels, hlabels, ht⟩
          refine ⟨[], labels, ?_, hlabels, by rw [ht]; rfl⟩
          intro x hx
          exact nomatch hx
        · rintro ⟨a, labels, ha, hlabels, heq⟩
          cases a with
          | nil =>
            injection heq with _ h2
            exact ⟨labels, hlabels, h2⟩
          | cons x xs =>
            rw [List.cons_append] at heq
            injection heq with h1 _
            exact absurd h1.symm (ha x (List.mem_cons_self x xs))
      · rw [show afterLabel (c :: t) = afterLabel t from by
              simp [afterLabel, hc]]
        rw [iha]
        constructor
        · rintro ⟨a, labels, ha, hlabels, ht⟩
          refine ⟨c :: a, labels, ?_, hlabels, by rw [List.cons_append, ht]⟩
          intro x hx
          rcases List.mem_cons.mp hx with h1 | h2
          · subst h1; exact hc
          · exact ha x h2
        · rintro ⟨a, labels, ha, hlabels, heq⟩
          cases a with
          | nil =>
            injection heq with h1 _
            exact absurd h1 hc
          | cons x xs =>
            rw [List.cons_append] at heq
            injection heq with h1 h2
            subst h1
            refine ⟨xs, labels, ?_, hlabels, h2⟩
            intro ch hch
            exact ha ch (List.mem_cons_of_mem c hch)

theorem starLabels_iff (m : List Char) :
    starLabels m = true ↔
      ∃ labels : List (List Char), GoodLabels labels ∧ m = dotChain labels :=
  (starLabels_afterLabel_iff m).1

theorem hostedSubTest_iff (s : String) :
    hostedSubTest s = true ↔
      ∃ m, starLabels m = true ∧
        s.data = "https://apps.".data ++ m ++ "powerapps.com".data := by
  unfold hostedSubTest
  cases hc : chompLit "https://apps.".data s.data with
  | none =>
    constructor
    · intro hf; cases hf
    · rintro ⟨m, _, hs⟩
      have hsome : chompLit "https://apps.".data s.data =
          some (m ++ "powerapps.com".data) :=
        (chompLit_eq_some _ _ _).mpr (by rw [hs, List.append_assoc])
      rw [hc] at hsome
      cases hsome
  | some r =>
    have hs : s.data = "https://apps.".data ++ r :=
      (chompLit_eq_some _ _ _).mp hc
    simp only [Bool.and_eq_true, decide_eq_true_eq]
    constructor
    · rintro ⟨⟨_, hdropeq⟩, hstar⟩
      refine ⟨r.take (r.length - 13), hstar, ?_⟩
      rw [hs, List.append_assoc]
      congr 1
      calc r = r.take (r.length - 13) ++ r.drop (r.length - 13) :=
              (List.take_append_drop _ _).symm
        _ = r.take (r.length - 13) ++ "powerapps.com".data := by rw [hdropeq]
    · rintro ⟨m, hm, hseq⟩
      have hr : r = m ++ "powerapps.com".data := by
        have hab : "https://apps.".data ++ r =
            "https://apps.".data ++ (m ++ "powerapps.com".data) := by
          rw [← hs, hseq, List.append_assoc]
        exact List.append_cancel_left hab
      have hlen2 : (m ++ "powerapps.com".data).length = m.length + 13 := by
        simp [List.length_append]
      have hlenr : r.length = m.length + 13 := by rw [hr]; exact hlen2
      have htake2 : (m ++ "powerapps.com".data).take
          ((m ++ "powerapps.com".data).length - 13) = m := by
        rw [show (m ++ "powerapps.com".data).length - 13 = m.length from by omega]
        exact List.take_left' rfl
      refine ⟨⟨by omega, ?_⟩, ?_⟩
      · rw [hr]
        exact List.drop_left' (by omega)
      · rw [hr, htake2]
        exact hm

theorem dotChain_eq : ∀ labels : List (List Char), labels ≠ [] →
    dotChain labels = dotSeparated labels ++ [Char.ofNat 46]
  | [], h => absurd rfl h
  | [l], _ => rfl
  | l :: l2 :: rest, _ => by
      rw [show dotChain (l :: l2 :: rest) =
            l ++ Char.ofNat 46 :: dotChain (l2 :: rest) from rfl,
          dotChain_eq (l2 :: rest) (by simp),
          show dotSeparated (l :: l2 :: rest) =
            l ++ Char.ofNat 46 :: dotSeparated (l2 :: rest) from rfl]
      simp [List.append_assoc]

theorem hostedAssoc (x : List Char) :
    ("https://apps.".data ++ (x ++ [Char.ofNat 46])) ++ "powerapps.com".data =
      ("https://apps.".data ++ x) ++ ".powerapps.com".data := by
  have hdp : [Char.ofNat 46] ++ "powerapps.com".data =
      ".powerapps.com".data := by decide
  rw [← hdp]
  simp [List.append_assoc]

theorem hosted_iff (s : String) :
    (hostedExactTest s || hostedSubTest s) = true ↔ SpecHostedOrigin s := by
  unfold SpecHostedOrigin
  rw [Bool.or_eq_true]
  constructor
  · rintro (hex | hsub)
    · exact Or.inl (of_decide_eq_true hex)
    · obtain ⟨m, hstar, hs⟩ := (hostedSubTest_iff s).mp hsub
      obtain ⟨labels, hlabels, hm⟩ := (starLabels_iff m).mp hstar
      subst hm
      cases labels with
      | nil =>
        refine Or.inl (String.ext ?_)
        rw [hs]
        decide
      | cons l ls =>
        refine Or.inr ⟨l :: ls, by simp, hlabels, ?_⟩
        rw [hs, dotChain_eq (l :: ls) (by simp), hostedAssoc]
  · rintro (hex | ⟨labels, hne, hlabels, hs⟩)
    · refine Or.inl (decide_eq_true ?_)
      exact hex
    · refine Or.inr ((hostedSubTest_iff s).mpr
        ⟨dotChain labels, (starLabels_iff _).mpr ⟨labels, hlabels, rfl⟩, ?_⟩)
      rw [hs, dotChain_eq labels hne, hostedAssoc]

/-- Helper for the `some((pattern) => pattern.test(origin))` call: the
allow-list disjunction written out. -/
theorem originAllowed_eq (s : String) :
    originAllowed s =
      (loopbackTest s || (hostedExactTest s || hostedSubTest s)) := by
  simp [originAllowed, powerAppsCorsOrigins]

/-- C1: the origin allow-list matcher returns true exactly for loopback
origins (http or https; host `localhost` with an optional subdomain part
— a non-empty colon-free run followed by a dot, as in the pattern —
`127.0.0.1`, or `[::1]`; any optional port) and hosted-player origins
(exactly `https://apps.powerapps.com`, or `https://apps.` followed by
one or more dot-separated labels and `.powerapps.com`); every other
origin is rejected. -/
theorem c1_origin_allowlist (s : String) :
    originAllowed s = true ↔ SpecAllowedOrigin s := by
  rw [originAllowed_eq, Bool.or_eq_true]
  exact or_congr (loopbackTest_iff s) (hosted_iff s)

/-! ## The config loader -/

theorem isPowerConfig_iff (j : Json) :
    isPowerConfig j = true ↔
      ∃ fields s, j = Json.obj fields ∧
        jsGet fields "environmentId" = some (Json.str s) := by
  constructor
  · intro h
    cases j with
    | obj fields =>
      cases hg : jsGet fields "environmentId" with
      | none =>
        simp only [isPowerConfig, hg] at h
        exact Bool.noConfusion h
      | some v =>
        cases v with
        | str s => exact ⟨fields, s, rfl, hg⟩
        | null =>
          simp only [isPowerConfig, hg] at h
          exact Bool.noConfusion h
        | bool b =>
          simp only [isPowerConfig, hg] at h
          exact Bool.noConfusion h
        | num n =>
          simp only [isPowerConfig, hg] at h
          exact Bool.noConfusion h
        | arr e =>
          simp only [isPowerConfig, hg] at h
          exact Bool.noConfusion h
        | obj f =>
          simp only [isPowerConfig, hg] at h
          exact Bool.noConfusion h
    | null => exact Bool.noConfusion h
    | bool b => exact Bool.noConfusion h
    | num n => exact Bool.noConfusion h
    | arr e => exact Bool.noConfusion h
    | str t => exact Bool.noConfusion h
  · rintro ⟨fields, s, heq, hg⟩
    subst heq
    simp only [isPowerConfig, hg]

/-- A successful load leaves the parsed record in the cache. -/
theorem getPowerConfig_ok_cache (configPath : String) (cache : Option Json)
    (file : FileContent) (j : Json)
    (h : (getPowerConfig configPath cache file).result = Except.ok j) :
    (getPowerConfig configPath cache file).cache = some j := by
  cases cache with
  | some c =>
    simp only [getPowerConfig, Except.ok.injEq] at h
    rw [show (getPowerConfig configPath (some c) file).cache = some c from rfl, h]
  | none =>
    cases file with
    | missing => simp [getPowerConfig] at h
    | malformed m => simp [getPowerConfig] at h
    | parsed jj =>
      by_cases hv : isPowerConfig jj
      · simp only [getPowerConfig, hv, if_true, Except.ok.injEq] at h
        subst h
        simp [getPowerConfig, hv]
      · simp [getPowerConfig, hv] at h

/-- C2 counterexample: the config `{"environmentId": ""}` is accepted by
the loader — `getPowerConfig` returns and caches a record whose
`environmentId` is the empty string, so a record with an empty
`environmentId` is exposed to callers. -/
theorem c2_empty_environmentId_loads :
    (getPowerConfig "/app/power.config.json" none
        (FileContent.parsed (Json.obj [("environmentId", Json.str "")]))).result =
      Except.ok (Json.obj [("environmentId", Json.str "")]) ∧
    (getPowerConfig "/app/power.config.json" none
        (FileContent.parsed (Json.obj [("environmentId", Json.str "")]))).cache =
      some (Json.obj [("environmentId", Json.str "")]) ∧
    environmentId (Json.obj [("environmentId", Json.str "")]) = some "" := by
  refine ⟨rfl, rfl, rfl⟩

/-- C2 (amended): every record `getPowerConfig` returns (and caches)
carries an `environmentId` property of string type — possibly the empty
string; loading yields such a record or fails outright, assuming the
cache slot only ever held validated records. -/
theorem c2_loaded_config_has_string_envId (configPath : String)
    (cache : Option Json) (file : FileContent) (j : Json)
    (hcache : cacheValid cache)
    (hok : (getPowerConfig configPath cache file).result = Except.ok j) :
    isPowerConfig j = true ∧
      cacheValid (getPowerConfig configPath cache file).cache := by
  have hc := getPowerConfig_ok_cache configPath cache file j hok
  cases cache with
  | some c =>
    have hv := hcache c rfl
    simp only [getPowerConfig, Except.ok.injEq] at hok
    subst hok
    refine ⟨hv, ?_⟩
    intro c' hc'
    rw [show (getPowerConfig configPath (some c) file).cache = some c from rfl]
      at hc'
    injection hc' with h1
    rw [← h1]
    exact hv
  | none =>
    cases file with
    | missing => simp [getPowerConfig] at hok
    | malformed m => simp [getPowerConfig] at hok
    | parsed jj =>
      by_cases hv : isPowerConfig jj
      · simp only [getPowerConfig, hv, if_true, Except.ok.injEq] at hok
        subst hok
        refine ⟨hv, ?_⟩
        intro c' hc'
        rw [hc] at hc'
        injection hc' with h1
        rw [← h1]
        exact hv
      · simp [getPowerConfig, hv] at hok

theorem c2_loaded_config_has_string_envId_witness :
    isPowerConfig (Json.obj [("environmentId", Json.str "abc-123")]) = true ∧
      cacheValid (getPowerConfig "/app/power.config.json" none
        (FileContent.parsed
          (Json.obj [("environmentId", Json.str "abc-123")]))).cache :=
  c2_loaded_config_has_string_envId "/app/power.config.json" none
    (FileContent.parsed (Json.obj [("environmentId", Json.str "abc-123")]))
    (Json.obj [("environmentId", Json.str "abc-123")])
    (fun _ h => nomatch h) rfl

/-- C5: a config file whose content parses as JSON but whose top-level
value has no `environmentId` field of string type makes `getPowerConfig`
fail with the invalid-structure error, whose message is exactly
`Invalid power.config.json structure. Missing environmentId.` -/
theorem c5_missing_environmentId_fails (configPath : String) (j : Json)
    (h : ¬ ∃ fields s, j = Json.obj fields ∧
        jsGet fields "environmentId" = some (Json.str s)) :
    (getPowerConfig configPath none (FileContent.parsed j)).result =
      Except.error LoadError.invalidStructure ∧
    LoadError.invalidStructure.message =
      "Invalid power.config.json structure. Missing environmentId." := by
  have hv : isPowerConfig j = false := by
    cases hb : isPowerConfig j with
    | false => rfl
    | true => exact absurd ((isPowerConfig_iff j).mp hb) h
  exact ⟨by simp [getPowerConfig, hv], rfl⟩

theorem c5_missing_environmentId_fails_witness :
    (getPowerConfig "/app/power.config.json" none
        (FileContent.parsed (Json.obj []))).result =
      Except.error LoadError.invalidStructure ∧
    LoadError.invalidStructure.message =
      "Invalid power.config.json structure. Missing environmentId." :=
  c5_missing_environmentId_fails "/app/power.config.json" (Json.obj [])
    (by
      rintro ⟨fields, s, heq, hg⟩
      injection heq with hf
      subst hf
      exact Option.noConfusion hg)

/-- C10: a failed load leaves the cache unchanged (and a failure can
only happen with an empty cache), so the immediately following call
re-reads the file and succeeds once it holds a valid config. -/
theorem c10_failed_load_not_cached (configPath : String)
    (cache : Option Json) (file : FileContent) (e : LoadError)
    (h : (getPowerConfig configPath cache file).result = Except.error e) :
    (getPowerConfig configPath cache file).cache = cache ∧ cache = none ∧
    ∀ j, isPowerConfig j = true →
      getPowerConfig configPath (getPowerConfig configPath cache file).cache
          (FileContent.parsed j) =
        { result := Except.ok j, cache := some j, fileRead := true } := by
  cases cache with
  | some c => simp [getPowerConfig] at h
  | none =>
    have hrest : ∀ j, isPowerConfig j = true →
        getPowerConfig configPath none (FileContent.parsed j) =
          { result := Except.ok j, cache := some j, fileRead := true } := by
      intro j hj
      simp [getPowerConfig, hj]
    cases file with
    | missing => exact ⟨rfl, rfl, hrest⟩
    | malformed m => exact ⟨rfl, rfl, hrest⟩
    | parsed jj =>
      by_cases hv : isPowerConfig jj
      · simp [getPowerConfig, hv] at h
      · refine ⟨?_, rfl, ?_⟩
        · simp [getPowerConfig, hv]
        · intro j hj
          rw [show (getPowerConfig configPath none (FileContent.parsed jj)).cache
                = none from by simp [getPowerConfig, hv]]
          exact hrest j hj

theorem c10_failed_load_not_cached_witness :
    (getPowerConfig "/app/power.config.json" none FileContent.missing).cache =
        none ∧
    (none : Option Json) = none ∧
    ∀ j, isPowerConfig j = true →
      getPowerConfig "/app/power.config.json"
          (getPowerConfig "/app/power.config.json" none
            FileContent.missing).cache (FileContent.parsed j) =
        { result := Except.ok j, cache := some j, fileRead := true } :=
  c10_failed_load_not_cached "/app/power.config.json" none
    FileContent.missing (LoadError.missingFile "/app/power.config.json") rfl

/-! ## The HTTP endpoint and the watcher -/

/-- C3: when loading fails, the config endpoint responds with an empty
body and status 200, still ends the response normally (the error is
caught at the boundary, never thrown to the network caller), and reports
the error through the logger. -/
theorem c3_serve_error_degrades (enabled : Bool) (configPath : String)
    (origin : Option String) (method : String) (cache : Option Json)
    (file : FileContent) (e : LoadError) (hm : method ≠ "OPTIONS")
    (he : (getPowerConfig configPath cache file).result = Except.error e) :
    (servePowerConfig enabled configPath origin method cache file).response.body
        = "" ∧
    (servePowerConfig enabled configPath origin method cache file).response.ended
        = true ∧
    (servePowerConfig enabled configPath origin method cache
        file).response.statusCode = 200 ∧
    (servePowerConfig enabled configPath origin method cache file).logs =
      [pcRed enabled
        ("[powerApps] Error serving power.config.json:\n            ⤷" ++
          e.message)] := by
  simp [servePowerConfig, hm, he]

theorem c3_serve_error_degrades_witness :
    (servePowerConfig false "/app" none "GET" none
        FileContent.missing).response.body = "" ∧
    (servePowerConfig false "/app" none "GET" none
        FileContent.missing).response.ended = true ∧
    (servePowerConfig false "/app" none "GET" none
        FileContent.missing).response.statusCode = 200 ∧
    (servePowerConfig false "/app" none "GET" none FileContent.missing).logs =
      [pcRed false
        ("[powerApps] Error serving power.config.json:\n            ⤷" ++
          (LoadError.missingFile "/app").message)] :=
  c3_serve_error_degrades false "/app" none "GET" none FileContent.missing
    (LoadError.missingFile "/app") (by decide) rfl

/-- C4: after one successful load every later call returns the identical
cached record without reading the file, and once the watcher's
invalidation signal clears the cache the next call reads the file again
whatever its content. -/
theorem c4_cache_roundtrip (enabled : Bool) (configPath : String)
    (cache : Option Json) (f f2 f3 : FileContent) (j : Json)
    (h : (getPowerConfig configPath cache f).result = Except.ok j) :
    getPowerConfig configPath (getPowerConfig configPath cache f).cache f2 =
      { result := Except.ok j, cache := some j, fileRead := false } ∧
    (getPowerConfig configPath
        (watchPowerConfig enabled configPath configPath
          (getPowerConfig configPath cache f).cache).cache f3).fileRead =
      true := by
  have hc := getPowerConfig_ok_cache configPath cache f j h
  constructor
  · rw [hc]
    rfl
  · rw [show (watchPowerConfig enabled configPath configPath
        (getPowerConfig configPath cache f).cache).cache = none from by
          simp [watchPowerConfig]]
    cases f3 with
    | missing => rfl
    | malformed m => rfl
    | parsed jj =>
      by_cases hv : isPowerConfig jj <;> simp [getPowerConfig, hv]

theorem c4_cache_roundtrip_witness :
    getPowerConfig "/app"
        (getPowerConfig "/app" none (FileContent.parsed
          (Json.obj [("environmentId", Json.str "abc")]))).cache
        FileContent.missing =
      { result := Except.ok (Json.obj [("environmentId", Json.str "abc")]),
        cache := some (Json.obj [("environmentId", Json.str "abc")]),
        fileRead := false } ∧
    (getPowerConfig "/app"
        (watchPowerConfig false "/app" "/app"
          (getPowerConfig "/app" none (FileContent.parsed
            (Json.obj [("environmentId", Json.str "abc")]))).cache).cache
        FileContent.missing).fileRead = true :=
  c4_cache_roundtrip false "/app" none
    (FileContent.parsed (Json.obj [("environmentId", Json.str "abc")]))
    FileContent.missing FileContent.missing
    (Json.obj [("environmentId", Json.str "abc")]) rfl

set_option maxRecDepth 4000 in
/-- C6: with environmentId `abc-123` and resolved local base URL
`http://localhost:5173/` (ANSI coloring disabled), the startup notifier
prints a play URL whose text contains the path segment
`/play/e/abc-123/a/local` and both query parameters. -/
theorem c6_play_url_contents :
    (printLocalPlayUrl false "/app" none
        (FileContent.parsed (Json.obj [("environmentId", Json.str "abc-123")]))
        (some "http://localhost:5173/")).1 =
      ["  Power Apps Vite Plugin\n",
       "  ➜  Local Play:   https://apps.powerapps.com/play/e/abc-123/a/local?_localAppUrl=http://localhost:5173/&_localConnectionUrl=http://localhost:5173/__vite_powerapps_plugin__/power.config.json"] ∧
    occursIn "/play/e/abc-123/a/local".data
      (composePlayUrl false "abc-123" "http://localhost:5173/").data = true ∧
    occursIn "_localAppUrl=http://localhost:5173/".data
      (composePlayUrl false "abc-123" "http://localhost:5173/").data = true ∧
    occursIn
      "_localConnectionUrl=http://localhost:5173/__vite_powerapps_plugin__/power.config.json".data
      (composePlayUrl false "abc-123" "http://localhost:5173/").data = true := by
  refine ⟨?_, ?_, ?_, ?_⟩ <;> decide

/-- C7: a change event for exactly the config path clears the cache and
requests a full restart (with the log line); a change event for any
other path leaves the cache unchanged and requests nothing. -/
theorem c7_watch_change (enabled : Bool) (configPath changedFile : String)
    (cache : Option Json) :
    (changedFile = configPath →
      watchPowerConfig enabled configPath changedFile cache =
        { cache := none, restartRequested := true,
          logs := [pcYellow enabled
            "[powerApps] power.config.json changed, restarting server..."] }) ∧
    (changedFile ≠ configPath →
      watchPowerConfig enabled configPath changedFile cache =
        { cache := cache, restartRequested := false, logs := [] }) :=
  ⟨fun h => by simp [watchPowerConfig, h],
   fun h => by simp [watchPowerConfig, h]⟩

theorem c7_watch_change_witness :
    watchPowerConfig false "/app/power.config.json" "/app/power.config.json"
        (some Json.null) =
      { cache := none, restartRequested := true,
        logs := [pcYellow false
          "[powerApps] power.config.json changed, restarting server..."] } ∧
    watchPowerConfig false "/app/power.config.json" "/app/src/main.tsx"
        (some Json.null) =
      { cache := some Json.null, restartRequested := false, logs := [] } :=
  ⟨(c7_watch_change false "/app/power.config.json" "/app/power.config.json"
      (some Json.null)).1 rfl,
   (c7_watch_change false "/app/power.config.json" "/app/src/main.tsx"
      (some Json.null)).2 (by decide)⟩

/-- C8: an OPTIONS preflight from an allowed origin is answered with
status 204 and an empty body, carries an Access-Control-Allow-Methods
header whose value contains both GET and OPTIONS, and terminates without
attempting a configuration load. -/
theorem c8_options_preflight (enabled : Bool) (configPath : String)
    (origin : String) (cache : Option Json) (file : FileContent)
    (h : originAllowed origin = true) :
    (servePowerConfig enabled configPath (some origin) "OPTIONS" cache
        file).response.statusCode = 204 ∧
    (servePowerConfig enabled configPath (some origin) "OPTIONS" cache
        file).response.body = "" ∧
    ("Access-Control-Allow-Methods", "GET, OPTIONS") ∈
      (servePowerConfig enabled configPath (some origin) "OPTIONS" cache
        file).response.headers ∧
    occursIn "GET".data "GET, OPTIONS".data = true ∧
    occursIn "OPTIONS".data "GET, OPTIONS".data = true ∧
    (servePowerConfig enabled configPath (some origin) "OPTIONS" cache
        file).loadAttempted = false ∧
    (servePowerConfig enabled configPath (some origin) "OPTIONS" cache
        file).cache = cache := by
  have hne : origin ≠ "" := by
    intro habs
    rw [habs] at h
    exact absurd h (by decide)
  refine ⟨?_, ?_, ?_, by decide, by decide, ?_, ?_⟩ <;>
    simp [servePowerConfig, corsHeadersFor, hne, h]

theorem c8_options_preflight_witness :
    (servePowerConfig false "/app" (some "http://localhost:5173") "OPTIONS"
        none FileContent.missing).response.statusCode = 204 ∧
    (servePowerConfig false "/app" (some "http://localhost:5173") "OPTIONS"
        none FileContent.missing).response.body = "" ∧
    ("Access-Control-Allow-Methods", "GET, OPTIONS") ∈
      (servePowerConfig false "/app" (some "http://localhost:5173") "OPTIONS"
        none FileContent.missing).response.headers ∧
    occursIn "GET".data "GET, OPTIONS".data = true ∧
    occursIn "OPTIONS".data "GET, OPTIONS".data = true ∧
    (servePowerConfig false "/app" (some "http://localhost:5173") "OPTIONS"
        none FileContent.missing).loadAttempted = false ∧
    (servePowerConfig false "/app" (some "http://localhost:5173") "OPTIONS"
        none FileContent.missing).cache = none :=
  c8_options_preflight false "/app" "http://localhost:5173" none
    FileContent.missing (by decide)

/-- Dropping the CORS headers erases exactly the origin-dependent part
of the header list. -/
theorem stripCors_corsHeadersFor (o : Option String)
    (rest : List (String × String)) :
    stripCors (corsHeadersFor o ++ rest) = stripCors rest := by
  cases o with
  | none => rfl
  | some s =>
    show stripCors ((if (decide (s ≠ "") && originAllowed s) = true then
        [("Access-Control-Allow-Origin", s),
         ("Access-Control-Allow-Methods", "GET, OPTIONS"),
         ("Access-Control-Allow-Headers", "*")]
      else []) ++ rest) = stripCors rest
    by_cases hcond : (decide (s ≠ "") && originAllowed s) = true
    · rw [if_pos hcond]
      rfl
    · rw [if_neg hcond]
      rfl

/-- C9: the Origin header influences only the CORS response headers:
for any two origins the status, body, cache, and logs agree and the
non-CORS headers agree; an OPTIONS request is answered 204 from any
origin, and a non-OPTIONS request whose load succeeds receives the full
serialized configuration from any origin. -/
theorem c9_origin_only_affects_cors (enabled : Bool) (configPath : String)
    (method : String) (cache : Option Json) (file : FileContent)
    (o1 o2 : Option String) :
    (servePowerConfig enabled configPath o1 method cache
        file).response.statusCode =
      (servePowerConfig enabled configPath o2 method cache
        file).response.statusCode ∧
    (servePowerConfig enabled configPath o1 method cache file).response.body =
      (servePowerConfig enabled configPath o2 method cache
        file).response.body ∧
    (servePowerConfig enabled configPath o1 method cache file).cache =
      (servePowerConfig enabled configPath o2 method cache file).cache ∧
    (servePowerConfig enabled configPath o1 method cache file).logs =
      (servePowerConfig enabled configPath o2 method cache file).logs ∧
    stripCors
        (servePowerConfig enabled configPath o1 method cache
          file).response.headers =
      stripCors
        (servePowerConfig enabled configPath o2 method cache
          file).response.headers ∧
    (method = "OPTIONS" →
      (servePowerConfig enabled configPath o1 method cache
        file).response.statusCode = 204) ∧
    (∀ j, method ≠ "OPTIONS" →
      (getPowerConfig configPath cache file).result = Except.ok j →
      (servePowerConfig enabled configPath o1 method cache
        file).response.body = Json.stringify j) := by
  by_cases hm : method = "OPTIONS"
  · subst hm
    refine ⟨rfl, rfl, rfl, rfl, ?_, fun _ => rfl, fun j hne _ => absurd rfl hne⟩
    calc stripCors (servePowerConfig enabled configPath o1 "OPTIONS" cache
            file).response.headers
        = stripCors (corsHeadersFor o1 ++ []) := by rw [List.append_nil]; rfl
      _ = stripCors ([] : List (String × String)) :=
            stripCors_corsHeadersFor o1 []
      _ = stripCors (corsHeadersFor o2 ++ []) :=
            (stripCors_corsHeadersFor o2 []).symm
      _ = stripCors (servePowerConfig enabled configPath o2 "OPTIONS" cache
            file).response.headers := by rw [List.append_nil]; rfl
  · cases hr : (getPowerConfig configPath cache file).result with
    | error e =>
      refine ⟨?_, ?_, ?_, ?_, ?_, fun habs => absurd habs hm,
        fun j _ hok => ?_⟩
      · simp [servePowerConfig, hm, hr]
      · simp [servePowerConfig, hm, hr]
      · simp [servePowerConfig, hm, hr]
      · simp [servePowerConfig, hm, hr]
      · simp only [servePowerConfig, hr]
        rw [if_neg hm, if_neg hm]
        dsimp only
        rw [stripCors_corsHeadersFor, stripCors_corsHeadersFor]
      · exact Except.noConfusion hok
    | ok cfg =>
      refine ⟨?_, ?_, ?_, ?_, ?_, fun habs => absurd habs hm,
        fun j _ hok => ?_⟩
      · simp [servePowerConfig, hm, hr]
      · simp [servePowerConfig, hm, hr]
      · simp [servePowerConfig, hm, hr]
      · simp [servePowerConfig, hm, hr]
      · simp only [servePowerConfig, hr]
        rw [if_neg hm, if_neg hm]
        dsimp only
        rw [stripCors_corsHeadersFor, stripCors_corsHeadersFor]
      · injection hok with hcfg
        subst hcfg
        simp [servePowerConfig, hm, hr]

theorem c9_origin_only_affects_cors_witness :
    (servePowerConfig false "/app" (some "https://apps.powerapps.com") "GET"
        none (FileContent.parsed
          (Json.obj [("environmentId", Json.str "x")]))).response.body =
      (servePowerConfig false "/app" none "GET" none
        (FileContent.parsed
          (Json.obj [("environmentId", Json.str "x")]))).response.body ∧
    (servePowerConfig false "/app" (some "https://apps.powerapps.com") "GET"
        none (FileContent.parsed
          (Json.obj [("environmentId", Json.str "x")]))).response.body =
      Json.stringify (Json.obj [("environmentId", Json.str "x")]) :=
  ⟨(c9_origin_only_affects_cors false "/app" "GET" none
      (FileContent.parsed (Json.obj [("environmentId", Json.str "x")]))
      (some "https://apps.powerapps.com") none).2.1,
   (c9_origin_only_affects_cors false "/app" "GET" none
      (FileContent.parsed (Json.obj [("environmentId", Json.str "x")]))
      (some "https://apps.powerapps.com") none).2.2.2.2.2.2
     (Json.obj [("environmentId", Json.str "x")]) (by decide) rfl⟩

end PowerAppsBridge
